import Mathlib

/-!
Shallow embedding of the `sphere-tracer-rust` core (the distance-field
evaluation engine and the sphere-tracing/shading pipeline) over the real
numbers, together with theorems settling the specification claims.

Conventions of the embedding:
* Rust `f64` values are modelled as real numbers (`ℝ`); `f64::min`,
  `f64::max` and `f64::clamp` become `min`, `max` and `f64clamp` on `ℝ`.
* `i32` loop bounds are modelled as `ℤ`; a `for i in 0..n` loop runs
  `n.toNat` times.
* The unbounded `while` loop in the shadow march is modelled with an
  explicit fuel parameter returning `Option` (`none` when the fuel is
  exhausted before the loop exits); termination theorems show that a
  computable amount of fuel always suffices when `accuracy > 0`.
* Definitions keep the names of the Rust sources (`src/distance_fields.rs`,
  `src/ray_marching.rs`, `src/math/vec3.rs`, `src/math/vec4.rs`,
  `src/math/ray.rs`).
-/

noncomputable section

/-- Rust `num::clamp` / `f64::clamp` (also used by `Vec3::clamp`):
`if x < lo { lo } else if x > hi { hi } else { x }`. -/
def f64clamp (x lo hi : ℝ) : ℝ :=
  if x < lo then lo else if x > hi then hi else x

/-- `Vec3` from `src/math/vec3.rs`: a 3-component `f64` vector. -/
structure Vec3 where
  x : ℝ
  y : ℝ
  z : ℝ

namespace Vec3

/-- `Vec3::one`. -/
def one : Vec3 := ⟨1, 1, 1⟩

/-- `Vec3::zero`. -/
def zero : Vec3 := ⟨0, 0, 0⟩

/-- `Vec3::dot`. -/
def dot (a b : Vec3) : ℝ := a.x * b.x + a.y * b.y + a.z * b.z

/-- `Vec3::sqr_length`. -/
def sqr_length (a : Vec3) : ℝ := dot a a

/-- `Vec3::length`: `self.sqr_length().sqrt()`. -/
def length (a : Vec3) : ℝ := Real.sqrt a.sqr_length

/-- `Vec3::abs` (componentwise). -/
def abs (a : Vec3) : Vec3 := ⟨|a.x|, |a.y|, |a.z|⟩

/-- `Vec3::max(a, b)`: componentwise max with a scalar. -/
def max (a : Vec3) (b : ℝ) : Vec3 := ⟨Max.max a.x b, Max.max a.y b, Max.max a.z b⟩

/-- `Vec3::min(a, b)`: componentwise min with a scalar. -/
def min (a : Vec3) (b : ℝ) : Vec3 := ⟨Min.min a.x b, Min.min a.y b, Min.min a.z b⟩

/-- `Vec3::max_element`: `self.x.max(self.y).max(self.z)`. -/
def max_element (a : Vec3) : ℝ := Max.max (Max.max a.x a.y) a.z

/-- `Vec3::min_element`. -/
def min_element (a : Vec3) : ℝ := Min.min (Min.min a.x a.y) a.z

/-- `internal_add_vec_vec` from `src/math/vec3.rs` (the `+` operator on
two `Vec3`s). -/
def internal_add_vec_vec (a b : Vec3) : Vec3 := ⟨a.x + b.x, a.y + b.y, a.z + b.z⟩

/-- `internal_add_vec_scalar` from `src/math/vec3.rs` (the `+` operator
`Vec3 + f64`, broadcasting the scalar to every component). -/
def internal_add_vec_scalar (a : Vec3) (b : ℝ) : Vec3 := ⟨a.x + b, a.y + b, a.z + b⟩

/-- `internal_sub_vec_vec` from `src/math/vec3.rs` (the `-` operator). -/
def internal_sub_vec_vec (a b : Vec3) : Vec3 := ⟨a.x - b.x, a.y - b.y, a.z - b.z⟩

/-- `internal_mul_vec_vec` from `src/math/vec3.rs` (componentwise `*`). -/
def internal_mul_vec_vec (a b : Vec3) : Vec3 := ⟨a.x * b.x, a.y * b.y, a.z * b.z⟩

/-- `internal_mul_vec_scalar` from `src/math/vec3.rs` (`Vec3 * f64`). -/
def internal_mul_vec_scalar (a : Vec3) (b : ℝ) : Vec3 := ⟨a.x * b, a.y * b, a.z * b⟩

/-- `internal_div_vec_scalar` from `src/math/vec3.rs` (`Vec3 / f64`). -/
def internal_div_vec_scalar (a : Vec3) (b : ℝ) : Vec3 := ⟨a.x / b, a.y / b, a.z / b⟩

/-- `internal_neg_vec` from `src/math/vec3.rs`. -/
def internal_neg_vec (a : Vec3) : Vec3 := ⟨-a.x, -a.y, -a.z⟩

/-- `Vec3::normalize`: `self / self.length()`. -/
def normalize (a : Vec3) : Vec3 := internal_div_vec_scalar a a.length

/-- `Vec3::clamp` (componentwise `num::clamp`). -/
def clamp (a : Vec3) (lo hi : ℝ) : Vec3 :=
  ⟨f64clamp a.x lo hi, f64clamp a.y lo hi, f64clamp a.z lo hi⟩

end Vec3

/-- `Vec4` from `src/math/vec4.rs`: a 4-component `f64` vector, also used
as a quaternion `(x; y, z, w)`. -/
structure Vec4 where
  x : ℝ
  y : ℝ
  z : ℝ
  w : ℝ

namespace Vec4

/-- `Vec4::one`. -/
def one : Vec4 := ⟨1, 1, 1, 1⟩

/-- `Vec4::zero`. -/
def zero : Vec4 := ⟨0, 0, 0, 0⟩

/-- `Vec4::from_vec3`. -/
def from_vec3 (v : Vec3) (w : ℝ) : Vec4 := ⟨v.x, v.y, v.z, w⟩

/-- `Vec4::dot`. -/
def dot (a b : Vec4) : ℝ := a.x * b.x + a.y * b.y + a.z * b.z + a.w * b.w

/-- `Vec4::sqr_length`. -/
def sqr_length (a : Vec4) : ℝ := dot a a

/-- `Vec4::length`. -/
def length (a : Vec4) : ℝ := Real.sqrt a.sqr_length

/-- `internal_add_vec_vec` from `src/math/vec4.rs`, transcribed verbatim:
the source computes the `w` component as `a.w + b.z` (not `a.w + b.w`). -/
def internal_add_vec_vec (a b : Vec4) : Vec4 :=
  ⟨a.x + b.x, a.y + b.y, a.z + b.z, a.w + b.z⟩

/-- `internal_mul_vec_vec` from `src/math/vec4.rs`, transcribed verbatim:
the source computes the `w` component as `a.w * b.z` (not `a.w * b.w`). -/
def internal_mul_vec_vec (a b : Vec4) : Vec4 :=
  ⟨a.x * b.x, a.y * b.y, a.z * b.z, a.w * b.z⟩

/-- `internal_mul_vec_scalar` from `src/math/vec4.rs`. -/
def internal_mul_vec_scalar (a : Vec4) (b : ℝ) : Vec4 := ⟨a.x * b, a.y * b, a.z * b, a.w * b⟩

/-- `internal_div_vec_scalar` from `src/math/vec4.rs`. -/
def internal_div_vec_scalar (a : Vec4) (b : ℝ) : Vec4 := ⟨a.x / b, a.y / b, a.z / b, a.w / b⟩

/-- `Vec4::q_square`: the quaternion square of `self`. -/
def q_square (s : Vec4) : Vec4 :=
  ⟨s.x * s.x - s.y * s.y - s.z * s.z - s.w * s.w,
   s.x * s.y * 2, s.x * s.z * 2, s.x * s.w * 2⟩

/-- `Vec4::q_cube`: the source first forms `sqr_self = self * self` using
the componentwise `internal_mul_vec_vec` (whose `w` lane is `self.w * self.z`),
then combines the components. -/
def q_cube (s : Vec4) : Vec4 :=
  let sqr_self := internal_mul_vec_vec s s
  let new_x_factor := sqr_self.x - sqr_self.y * 3 - sqr_self.z * 3 - sqr_self.w * 3
  let new_other_factor := sqr_self.x * 3 - sqr_self.y - sqr_self.z - sqr_self.w
  ⟨s.x * new_x_factor, s.y * new_other_factor, s.z * new_other_factor, s.w * new_other_factor⟩

end Vec4

/-- `Ray` from `src/math/ray.rs`. -/
structure Ray where
  orig : Vec3
  dir : Vec3

/-- `Ray::new`: stores the origin and the normalized direction. -/
def Ray.new (orig dir : Vec3) : Ray := ⟨orig, dir.normalize⟩

/-- The `DistanceField` enum from `src/distance_fields.rs`; each variant
carries the fields of the corresponding Rust struct. -/
inductive DistanceField where
  | Sphere (pos : Vec3) (size : ℝ)
  | Cuboid (pos : Vec3) (size : Vec3)
  | Torus (pos : Vec3) (outer_size inner_size : ℝ)
  | Plane (normal : Vec3) (h : ℝ)
  | Julia (pos : Vec3) (iterations : ℤ) (traps : Bool) (c : Vec4) (cut : Bool) (cut_y : ℝ)
  | Union (a b : DistanceField)
  | Subtraction (a b : DistanceField)
  | Intersection (a b : DistanceField)

/-- The mutable state of the loop inside `Julia::get_distance`. -/
structure JuliaState where
  z : Vec4
  sqrt_derive_z : ℝ
  m2 : ℝ
  n : ℝ
  o : ℝ

/-- The `for i in 0..self.iterations` loop of `Julia::get_distance`,
by recursion on the number of remaining iterations.  Each pass multiplies
the derivative accumulator by `9 * z.q_square().sqr_length()`, updates
`z = z.q_cube() + self.c` (the `+` being `Vec4::internal_add_vec_vec`),
recomputes `m2`, updates the orbit trap when `traps` is set, and breaks
when `m2 > 256` (before `n += 1`). -/
def juliaLoop (traps : Bool) (c : Vec4) : ℕ → JuliaState → JuliaState
  | 0, s => s
  | k + 1, s =>
    let sqrt_derive_z := s.sqrt_derive_z * (9 * (Vec4.q_square s.z).sqr_length)
    let z := Vec4.internal_add_vec_vec (Vec4.q_cube s.z) c
    let m2 := z.sqr_length
    let o := if traps then
        Min.min s.o (Real.sqrt ((z.x - 0.45) ^ 2 + (z.z - 0.55) ^ 2) - 0.1)
      else s.o
    if m2 > 256 then ⟨z, sqrt_derive_z, m2, s.n, o⟩
    else juliaLoop traps c k ⟨z, sqrt_derive_z, m2, s.n + 1, o⟩

/-- `Julia::get_distance` from `src/distance_fields.rs`. -/
def juliaDistance (pos : Vec3) (iterations : ℤ) (traps : Bool) (c : Vec4)
    (cut : Bool) (cut_y : ℝ) (p : Vec3) : ℝ :=
  let p2 := Vec3.internal_sub_vec_vec p pos
  let s := juliaLoop traps c iterations.toNat
    ⟨Vec4.from_vec3 p2 0, 1, 0, 0, 1e10⟩
  let d := 0.25 * Real.log s.m2 * Real.sqrt (s.m2 / s.sqrt_derive_z)
  let d := if traps then Min.min d s.o else d
  let d := if cut then Max.max d p.y else d
  d

/-- `DistanceField::get_distance` (dispatching to each variant's
`get_distance` from `src/distance_fields.rs`). -/
def DistanceField.get_distance : DistanceField → Vec3 → ℝ
  | .Sphere pos size, p =>
      (Vec3.internal_sub_vec_vec p pos).length - size
  | .Cuboid pos size, p =>
      let q := Vec3.internal_sub_vec_vec (Vec3.internal_sub_vec_vec p pos).abs size
      (Vec3.internal_add_vec_scalar (Vec3.max q 0) (Min.min q.max_element 0)).length
  | .Torus _pos outer_size inner_size, p =>
      let q : Vec3 := ⟨Real.sqrt (p.x * p.x + p.z * p.z) - outer_size, p.y, 0⟩
      q.length - inner_size
  | .Plane normal h, p => Vec3.dot p normal + h
  | .Julia pos iterations traps c cut cut_y, p =>
      juliaDistance pos iterations traps c cut cut_y p
  | .Union a b, p => Min.min (a.get_distance p) (b.get_distance p)
  | .Subtraction a b, p => Max.max (-(a.get_distance p)) (b.get_distance p)
  | .Intersection a b, p => Max.max (a.get_distance p) (b.get_distance p)

/-- The `RayMarcher` struct from `src/ray_marching.rs` (configuration plus
the owned scene). -/
structure RayMarcher where
  max_iterations : ℤ
  max_distance : ℝ
  accuracy : ℝ
  debug : Bool
  normal_accuracy : ℝ
  offset_x : Vec3
  offset_y : Vec3
  offset_z : Vec3
  scene : DistanceField
  obj_color : Vec3
  light_dir : Vec3
  light_color : Vec3
  light_intensity : ℝ
  bg_light_color : Vec3
  bg_light_intensity : ℝ
  shadow_dist_min : ℝ
  shadow_dist_max : ℝ
  shadow_fuzziness : ℝ
  ao_step_size : ℝ
  ao_intensity : ℝ
  ao_iterations : ℤ

/-- `create_ray_marcher` from `src/ray_marching.rs`. -/
def create_ray_marcher (scene : DistanceField) : RayMarcher where
  max_iterations := 4000
  max_distance := 7
  accuracy := 0.00001
  debug := false
  normal_accuracy := 0.000001
  offset_x := ⟨0.000001, 0, 0⟩
  offset_y := ⟨0, 0.000001, 0⟩
  offset_z := ⟨0, 0, 0.000001⟩
  scene := scene
  obj_color := ⟨1, 1, 1⟩
  light_dir := Vec3.normalize ⟨0.5, -1, 0.5⟩
  light_color := ⟨1, 1, 1⟩
  light_intensity := 1
  bg_light_color := ⟨1, 1, 1⟩
  bg_light_intensity := 0.1
  shadow_dist_min := 0
  shadow_dist_max := 7
  shadow_fuzziness := 5
  ao_step_size := 0.05
  ao_intensity := 0.3
  ao_iterations := 3

namespace RayMarcher

/-- `RayMarcher::distance_field`. -/
def distance_field (rm : RayMarcher) (p : Vec3) : ℝ := rm.scene.get_distance p

/-- `RayMarcher::get_normal`: six-sample central differences along the
three axis offsets, then `normalize`. -/
def get_normal (rm : RayMarcher) (p : Vec3) : Vec3 :=
  Vec3.normalize
    ⟨rm.distance_field (Vec3.internal_add_vec_vec p rm.offset_x) -
       rm.distance_field (Vec3.internal_sub_vec_vec p rm.offset_x),
     rm.distance_field (Vec3.internal_add_vec_vec p rm.offset_y) -
       rm.distance_field (Vec3.internal_sub_vec_vec p rm.offset_y),
     rm.distance_field (Vec3.internal_add_vec_vec p rm.offset_z) -
       rm.distance_field (Vec3.internal_sub_vec_vec p rm.offset_z)⟩

/-- The `while t < self.shadow_dist_max` loop of `RayMarcher::shadow`,
with an explicit fuel parameter (`none` when the fuel runs out before the
loop exits) and an iteration counter attached to the result (second
component: how many distance-field evaluations the loop performed).

The `t = 0` case of the accumulation models the IEEE-754 semantics of the
source line `result = result.min(self.shadow_fuzziness * d / t)`: the loop
reaches that line only with `d ≥ accuracy`, so for `accuracy > 0` and
`t = 0` the `f64` quotient is `+∞` and the `min` leaves `result`
unchanged, which is what the `t = 0` branch returns. -/
def shadowAux (rm : RayMarcher) (sr : Ray) : ℕ → ℝ → ℝ → Option (ℝ × ℕ)
  | fuel, t, result =>
    if t < rm.shadow_dist_max then
      match fuel with
      | 0 => none
      | k + 1 =>
        let p := Vec3.internal_add_vec_vec sr.orig (Vec3.internal_mul_vec_scalar sr.dir t)
        let d := rm.distance_field p
        if d < rm.accuracy then some (0, 1)
        else
          let result := if t = 0 then result
            else Min.min result (rm.shadow_fuzziness * d / t)
          (rm.shadowAux sr k (t + d) result).map (fun r => (r.1, r.2 + 1))
    else some (f64clamp result 0 1, 0)

/-- Fuel that always suffices for `shadowAux` when `accuracy > 0`
(proved below): one step per `accuracy`-sized advance plus one. -/
def shadowFuel (rm : RayMarcher) : ℕ :=
  (⌈(rm.shadow_dist_max - rm.shadow_dist_min) / rm.accuracy⌉).toNat + 1

/-- `RayMarcher::shadow` including its iteration count: builds the shadow
ray from `p + n * accuracy` toward `-light_dir` and runs the march from
`t = shadow_dist_min` with `result = 1`. -/
def shadow_march (rm : RayMarcher) (p n : Vec3) : Option (ℝ × ℕ) :=
  let sro := Vec3.internal_add_vec_vec p (Vec3.internal_mul_vec_scalar n rm.accuracy)
  let sr := Ray.new sro (Vec3.internal_neg_vec rm.light_dir)
  rm.shadowAux sr (rm.shadowFuel) rm.shadow_dist_min 1

/-- `RayMarcher::shadow` (the returned factor alone). -/
def shadow (rm : RayMarcher) (p n : Vec3) : Option ℝ :=
  (rm.shadow_march p n).map Prod.fst

/-- The `for i in 0..self.ao_iterations` loop of
`RayMarcher::ambient_occlusion`: `aoLoop k` accumulates the first `k`
samples (`dist = ao_step_size * (i + 1)` for `i = 0, …, k-1`). -/
def aoLoop (rm : RayMarcher) (p n : Vec3) : ℕ → ℝ
  | 0 => 0
  | k + 1 =>
    let dist := rm.ao_step_size * (k + 1)
    let point := Vec3.internal_add_vec_vec p (Vec3.internal_mul_vec_scalar n dist)
    rm.aoLoop p n k + Max.max 0 ((dist - rm.distance_field point) / dist)

/-- `RayMarcher::ambient_occlusion`. -/
def ambient_occlusion (rm : RayMarcher) (p n : Vec3) : ℝ :=
  f64clamp (1 - rm.aoLoop p n rm.ao_iterations.toNat * rm.ao_intensity) 0 1

/-- `RayMarcher::shading` (`Option`-valued because the shadow march is;
the termination theorems show the `none` case never occurs when
`accuracy > 0`). -/
def shading (rm : RayMarcher) (p : Vec3) : Option Vec4 :=
  let n := rm.get_normal p
  (rm.shadow p n).map (fun shadow =>
    let ambient_occlusion := rm.ambient_occlusion p n
    let sun_light := Vec3.internal_mul_vec_vec rm.obj_color
      (Vec3.internal_mul_vec_scalar
        (Vec3.internal_mul_vec_scalar
          (Vec3.internal_mul_vec_scalar rm.light_color
            (f64clamp (Vec3.dot (Vec3.internal_neg_vec rm.light_dir) n) 0 1))
          rm.light_intensity)
        shadow)
    let bg_light := Vec3.internal_mul_vec_scalar
      (Vec3.internal_mul_vec_vec rm.obj_color
        (Vec3.internal_mul_vec_scalar rm.bg_light_color rm.bg_light_intensity))
      ambient_occlusion
    let light := Vec3.internal_add_vec_vec sun_light bg_light
    Vec4.from_vec3 light 1)

/-- The `for i in 0..self.max_iterations` loop of
`RayMarcher::ray_marching`.  `fuel` is the number of remaining iterations,
`i` the current loop index (used only by the debug branches), `t` the
current ray parameter and `result` the accumulator initialized to
`Vec4::one()`.  The second component of the result counts the
distance-field evaluations performed. -/
def rayMarchAux (rm : RayMarcher) (ray : Ray) : ℕ → ℤ → ℝ → Vec4 → Option (Vec4 × ℕ)
  | 0, _, _, result => some (result, 0)
  | k + 1, i, t, result =>
    if t > rm.max_distance then
      if rm.debug then
        some (Vec4.internal_div_vec_scalar
          (Vec4.internal_mul_vec_scalar Vec4.one (i : ℝ)) (rm.max_iterations : ℝ), 0)
      else some (Vec4.zero, 0)
    else
      let p := Vec3.internal_add_vec_vec ray.orig (Vec3.internal_mul_vec_scalar ray.dir t)
      let d := rm.distance_field p
      if d < rm.accuracy then
        if rm.debug then
          some (Vec4.internal_div_vec_scalar
            (Vec4.internal_mul_vec_scalar Vec4.one (i : ℝ)) (rm.max_iterations : ℝ), 1)
        else (rm.shading p).map (fun c => (c, 1))
      else (rm.rayMarchAux ray k (i + 1) (t + d) result).map (fun r => (r.1, r.2 + 1))

/-- `RayMarcher::ray_marching` (the returned pixel color alone). -/
def ray_marching (rm : RayMarcher) (ray : Ray) : Option Vec4 :=
  (rm.rayMarchAux ray rm.max_iterations.toNat 0 0 Vec4.one).map Prod.fst

end RayMarcher

/-- The `let q = (p - self.pos).abs() - self.size` of `Cuboid::get_distance`. -/
def cuboidQ (pos size p : Vec3) : Vec3 :=
  Vec3.internal_sub_vec_vec (Vec3.internal_sub_vec_vec p pos).abs size

/-- The Cuboid distance as the specification words it:
`length(max(q, 0)) + min(max_component(q), 0)`, the scalar term added to
the length (not broadcast into the vector before the length).  Stated for
comparison with the source's `Cuboid::get_distance`. -/
def cuboidSpecDistance (pos size p : Vec3) : ℝ :=
  (Vec3.max (cuboidQ pos size p) 0).length + Min.min (cuboidQ pos size p).max_element 0

/-- Quaternion addition as the claim words it: componentwise, including
the `w` component.  Stated for comparison with
`Vec4.internal_add_vec_vec`. -/
def q_add_true (a b : Vec4) : Vec4 := ⟨a.x + b.x, a.y + b.y, a.z + b.z, a.w + b.w⟩

/-- The true quaternion cube of `q = (x; y, z, w)`:
`q³ = (x(x² - 3|v|²); v(3x² - |v|²))` for `v = (y, z, w)`.  Stated for
comparison with `Vec4.q_cube`. -/
def q_cube_true (s : Vec4) : Vec4 :=
  let v2 := s.y * s.y + s.z * s.z + s.w * s.w
  ⟨s.x * (s.x * s.x - 3 * v2), s.y * (3 * s.x * s.x - v2),
   s.z * (3 * s.x * s.x - v2), s.w * (3 * s.x * s.x - v2)⟩

/-- A miniature model of IEEE-754 `f64` values (finite, the two
infinities, NaN), used where real arithmetic cannot express the source's
behavior: the escape-distance expression of `Julia::get_distance`
evaluates `ln(0) = -∞` and then `-∞ * 0 = NaN` when the loop body never
ran. -/
inductive F64 where
  | fin (x : ℝ)
  | pinf
  | ninf
  | nan

namespace F64

/-- IEEE-754 multiplication on the modelled values (any product with a
NaN operand is NaN; `±∞ * 0` is NaN). -/
def mul : F64 → F64 → F64
  | fin a, fin b => fin (a * b)
  | fin a, pinf => if 0 < a then pinf else if a < 0 then ninf else nan
  | fin a, ninf => if 0 < a then ninf else if a < 0 then pinf else nan
  | pinf, fin b => if 0 < b then pinf else if b < 0 then ninf else nan
  | ninf, fin b => if 0 < b then ninf else if b < 0 then pinf else nan
  | pinf, pinf => pinf
  | pinf, ninf => ninf
  | ninf, pinf => ninf
  | ninf, ninf => pinf
  | _, _ => nan

/-- IEEE-754 division restricted to the cases the theorems evaluate
(finite numerator and denominator; a zero denominator behaves as the
IEEE `+0` of the literal `0.`). -/
def div : F64 → F64 → F64
  | fin a, fin b =>
      if b = 0 then (if a = 0 then nan else if 0 < a then pinf else ninf)
      else fin (a / b)
  | _, _ => nan

/-- IEEE-754 `f64::ln`: `ln(0) = -∞`, negative arguments give NaN. -/
def log : F64 → F64
  | fin a => if a = 0 then ninf else if 0 < a then fin (Real.log a) else nan
  | pinf => pinf
  | _ => nan

/-- IEEE-754 `f64::sqrt`: negative arguments give NaN. -/
def sqrt : F64 → F64
  | fin a => if 0 ≤ a then fin (Real.sqrt a) else nan
  | pinf => pinf
  | _ => nan

end F64

/-- The expression `0.25 * m2.ln() * (m2 / sqrt_derive_z).sqrt()` computed
after the loop of `Julia::get_distance`, evaluated in the IEEE-754 model
(the `*` associates to the left as in the source). -/
def juliaEscapeEstimate (m2 sqrt_derive_z : F64) : F64 :=
  ((F64.fin 0.25).mul m2.log).mul ((m2.div sqrt_derive_z).sqrt)

/-- The trace of the shadow march: the `(t, d)` pairs visited by the
`while` loop of `RayMarcher::shadow`, generated by the same recursion as
`RayMarcher.shadowAux` (`none` when the fuel runs out first). -/
def RayMarcher.shadowTrace (rm : RayMarcher) (sr : Ray) : ℕ → ℝ → Option (List (ℝ × ℝ))
  | fuel, t =>
    if t < rm.shadow_dist_max then
      match fuel with
      | 0 => none
      | k + 1 =>
        let p := Vec3.internal_add_vec_vec sr.orig (Vec3.internal_mul_vec_scalar sr.dir t)
        let d := rm.distance_field p
        if d < rm.accuracy then some [(t, d)]
        else (rm.shadowTrace sr k (t + d)).map (fun l => (t, d) :: l)
    else some []

/-- One accumulation step of the penumbra factor for a march step
`s = (t, d)`: `min(r, shadow_fuzziness * d / t)`, where a step with
`t = 0` contributes the IEEE quotient `+∞` and so never lowers the
minimum. -/
def RayMarcher.shadowStep (rm : RayMarcher) (r : ℝ) (s : ℝ × ℝ) : ℝ :=
  if s.1 = 0 then r else Min.min r (rm.shadow_fuzziness * s.2 / s.1)

/-- The shadow factor the specification describes for a given march
trace: `0` as soon as some step evaluates a distance below `accuracy`,
otherwise the running minimum of `shadow_fuzziness * d / t` over the
steps, started at `1` and clamped to `[0, 1]` at the end. -/
def RayMarcher.shadowSpecFactor (rm : RayMarcher) (steps : List (ℝ × ℝ)) : ℝ :=
  if ∃ s ∈ steps, s.2 < rm.accuracy then 0
  else f64clamp (steps.foldl rm.shadowStep 1) 0 1

/-- A small concrete configuration used by witnesses and counterexamples:
a horizontal plane through the origin, unit accuracy, vertical light,
and an iteration budget of one. -/
def rmPlaneUp : RayMarcher where
  max_iterations := 1
  max_distance := 7
  accuracy := 1
  debug := false
  normal_accuracy := 1
  offset_x := ⟨1, 0, 0⟩
  offset_y := ⟨0, 1, 0⟩
  offset_z := ⟨0, 0, 1⟩
  scene := DistanceField.Plane ⟨0, 1, 0⟩ 0
  obj_color := ⟨1, 1, 1⟩
  light_dir := ⟨0, -1, 0⟩
  light_color := ⟨1, 1, 1⟩
  light_intensity := 1
  bg_light_color := ⟨1, 1, 1⟩
  bg_light_intensity := 0.1
  shadow_dist_min := 0
  shadow_dist_max := 3
  shadow_fuzziness := 5
  ao_step_size := 0.05
  ao_intensity := 0.3
  ao_iterations := 3

/-- The unit vector opposite to `create_ray_marcher`'s light direction
`normalize((0.5, -1, 0.5))`; a plane with this normal through the origin
faces the light head-on. -/
def planeN : Vec3 :=
  ⟨-(0.5 / Real.sqrt 1.5), 1 / Real.sqrt 1.5, -(0.5 / Real.sqrt 1.5)⟩

/-- C4: for every pair of distance fields `a`, `b` and every point `p`,
the Union evaluates to `min(distance(a,p), distance(b,p))`, the
Subtraction to `max(-distance(a,p), distance(b,p))`, and the Intersection
to `max(distance(a,p), distance(b,p))`. -/
theorem claim_C4_combinator_identities (a b : DistanceField) (p : Vec3) :
    (DistanceField.Union a b).get_distance p =
      Min.min (a.get_distance p) (b.get_distance p) ∧
    (DistanceField.Subtraction a b).get_distance p =
      Max.max (-(a.get_distance p)) (b.get_distance p) ∧
    (DistanceField.Intersection a b).get_distance p =
      Max.max (a.get_distance p) (b.get_distance p) :=
  ⟨rfl, rfl, rfl⟩

/-- C9: `Torus::get_distance` ignores the `pos` field entirely: two tori
differing only in their centers compute the same distance, namely
`sqrt((sqrt(p.x² + p.z²) − outer_size)² + p.y²) − inner_size` on the raw,
uncentered point. -/
theorem claim_C9_torus_ignores_pos (c1 c2 : Vec3) (outer_size inner_size : ℝ) (p : Vec3) :
    (DistanceField.Torus c1 outer_size inner_size).get_distance p =
      (DistanceField.Torus c2 outer_size inner_size).get_distance p ∧
    (DistanceField.Torus c1 outer_size inner_size).get_distance p =
      Real.sqrt ((Real.sqrt (p.x ^ 2 + p.z ^ 2) - outer_size) ^ 2 + p.y ^ 2)
        - inner_size := by
  refine ⟨rfl, ?_⟩
  simp only [DistanceField.get_distance, Vec3.length, Vec3.sqr_length, Vec3.dot]
  have hx : p.x * p.x + p.z * p.z = p.x ^ 2 + p.z ^ 2 := by ring
  rw [hx]
  have harg : (Real.sqrt (p.x ^ 2 + p.z ^ 2) - outer_size) *
        (Real.sqrt (p.x ^ 2 + p.z ^ 2) - outer_size) + p.y * p.y + 0 * 0 =
      (Real.sqrt (p.x ^ 2 + p.z ^ 2) - outer_size) ^ 2 + p.y ^ 2 := by ring
  rw [harg]

/-- C10: when a Julia field's `cut` flag is set, the returned distance is
`max(d, p.y)` on the original, uncentered query point (the clip plane sits
at world height 0), and the `cut_y` field has no effect on the result. -/
theorem claim_C10_julia_cut (pos : Vec3) (iterations : ℤ) (traps : Bool) (c : Vec4)
    (y1 y2 : ℝ) (p : Vec3) :
    (DistanceField.Julia pos iterations traps c true y1).get_distance p =
      Max.max ((DistanceField.Julia pos iterations traps c false y1).get_distance p) p.y ∧
    (DistanceField.Julia pos iterations traps c true y1).get_distance p =
      (DistanceField.Julia pos iterations traps c true y2).get_distance p := by
  constructor
  · simp [DistanceField.get_distance, juliaDistance]
  · rfl

/-- C2 is refuted by the code: starting the Julia iteration from
`z = (0,0,0,0)` with `c = (0,0,1,0)`, after one pass of the loop the
source's `z` is `(0, 0, 1, 1)` — its `w` component received `c.z`,
because `Vec4`'s componentwise `+` computes the `w` lane as `a.w + b.z` —
whereas true quaternion arithmetic (`z³` as a quaternion, then
componentwise addition of `c` including the `w` component) gives
`(0, 0, 1, 0)`. -/
theorem claim_C2_julia_update_w_bug :
    (juliaLoop false ⟨0, 0, 1, 0⟩ (Int.toNat 1) ⟨⟨0, 0, 0, 0⟩, 1, 0, 0, 1e10⟩).z =
      ⟨0, 0, 1, 1⟩ ∧
    q_add_true (q_cube_true ⟨0, 0, 0, 0⟩) ⟨0, 0, 1, 0⟩ = ⟨0, 0, 1, 0⟩ ∧
    (juliaLoop false ⟨0, 0, 1, 0⟩ (Int.toNat 1) ⟨⟨0, 0, 0, 0⟩, 1, 0, 0, 1e10⟩).z.w ≠
      (q_add_true (q_cube_true ⟨0, 0, 0, 0⟩) ⟨0, 0, 1, 0⟩).w := by
  have h1 : Int.toNat 1 = 0 + 1 := by norm_num
  refine ⟨?_, ?_, ?_⟩ <;>
    norm_num [h1, juliaLoop, Vec4.q_square, Vec4.q_cube, Vec4.internal_add_vec_vec,
      Vec4.internal_mul_vec_vec, Vec4.sqr_length, Vec4.dot, q_add_true, q_cube_true]

/-- C6 is refuted by the code: with `iterations = 0` the loop body never
runs, so `m2 = 0` and `sqrt_derive_z = 1` reach the escape-distance
expression, which in IEEE-754 `f64` arithmetic evaluates
`0.25 * ln(0) * sqrt(0/1) = (-∞) * 0 = NaN` — not a finite real number
(the constant `c` below is the one used by `main.rs`). -/
theorem claim_C6_zero_iterations_nan :
    (juliaLoop false ⟨-0.151, 0.59, 0.4, -0.2⟩ (Int.toNat 0)
        ⟨Vec4.from_vec3 ⟨0, 0, 0⟩ 0, 1, 0, 0, 1e10⟩).m2 = 0 ∧
    (juliaLoop false ⟨-0.151, 0.59, 0.4, -0.2⟩ (Int.toNat 0)
        ⟨Vec4.from_vec3 ⟨0, 0, 0⟩ 0, 1, 0, 0, 1e10⟩).sqrt_derive_z = 1 ∧
    juliaEscapeEstimate (F64.fin 0) (F64.fin 1) = F64.nan := by
  refine ⟨rfl, rfl, ?_⟩
  norm_num [juliaEscapeEstimate, F64.mul, F64.div, F64.log, F64.sqrt, Real.sqrt_zero]

/-- Helper: scaling a vector of unit dot square by a positive factor and
normalizing recovers the vector. -/
theorem normalize_smul_unit (nv : Vec3) (c : ℝ) (hc : 0 < c)
    (hdot : Vec3.dot nv nv = 1) :
    Vec3.normalize (Vec3.internal_mul_vec_scalar nv c) = nv := by
  obtain ⟨nx, ny, nz⟩ := nv
  simp only [Vec3.dot] at hdot
  unfold Vec3.normalize Vec3.internal_div_vec_scalar Vec3.length Vec3.sqr_length
    Vec3.dot Vec3.internal_mul_vec_scalar
  simp only
  have h1 : nx * c * (nx * c) + ny * c * (ny * c) + nz * c * (nz * c) = c ^ 2 := by
    have h2 : nx * c * (nx * c) + ny * c * (ny * c) + nz * c * (nz * c) =
        c ^ 2 * (nx * nx + ny * ny + nz * nz) := by ring
    rw [h2, hdot, mul_one]
  rw [h1, Real.sqrt_sq hc.le]
  have hc0 : c ≠ 0 := hc.ne'
  simp only [Vec3.mk.injEq]
  refine ⟨?_, ?_, ?_⟩ <;> field_simp

/-- C7: on a Plane field with a unit normal, the six-sample
central-difference normal estimate of `RayMarcher::get_normal` equals the
plane's configured normal exactly, at every point, for every positive
central-difference epsilon. -/
theorem claim_C7_plane_normal (rm : RayMarcher) (n : Vec3) (h : ℝ) (p : Vec3) (eps : ℝ)
    (hscene : rm.scene = DistanceField.Plane n h)
    (hx : rm.offset_x = ⟨eps, 0, 0⟩) (hy : rm.offset_y = ⟨0, eps, 0⟩)
    (hz : rm.offset_z = ⟨0, 0, eps⟩) (heps : 0 < eps) (hn : n.length = 1) :
    rm.get_normal p = n := by
  have hdot : Vec3.dot n n = 1 := by
    unfold Vec3.length Vec3.sqr_length at hn
    rwa [Real.sqrt_eq_one] at hn
  have hv : rm.get_normal p = Vec3.normalize (Vec3.internal_mul_vec_scalar n (2 * eps)) := by
    unfold RayMarcher.get_normal RayMarcher.distance_field
    rw [hscene, hx, hy, hz]
    obtain ⟨nx, ny, nz⟩ := n
    simp only [DistanceField.get_distance, Vec3.internal_add_vec_vec,
      Vec3.internal_sub_vec_vec, Vec3.dot, Vec3.internal_mul_vec_scalar]
    congr 1
    simp only [Vec3.mk.injEq]
    refine ⟨?_, ?_, ?_⟩ <;> ring
  rw [hv, normalize_smul_unit n (2 * eps) (by linarith) hdot]

/-- Witness for C7 at the `create_ray_marcher` configuration, the plane
with normal `(0,0,1)` and offset `2`, and the point `(5,7,9)`. -/
theorem claim_C7_plane_normal_witness :
    (create_ray_marcher (DistanceField.Plane ⟨0, 0, 1⟩ 2)).get_normal ⟨5, 7, 9⟩ =
      ⟨0, 0, 1⟩ := by
  refine claim_C7_plane_normal _ ⟨0, 0, 1⟩ 2 _ 0.000001 rfl rfl rfl rfl (by norm_num) ?_
  unfold Vec3.length Vec3.sqr_length Vec3.dot
  norm_num

/-- C1 counterexample: at the center of the unit cuboid the source
returns `√3` — the scalar `min(max_component(q), 0)` is broadcast-added
to every component inside the length — while the claimed formula
`length(max(q, 0)) + min(max_component(q), 0)` gives `-1`. -/
theorem claim_C1_cuboid_counterexample :
    (DistanceField.Cuboid ⟨0, 0, 0⟩ ⟨1, 1, 1⟩).get_distance ⟨0, 0, 0⟩ ≠
      cuboidSpecDistance ⟨0, 0, 0⟩ ⟨1, 1, 1⟩ ⟨0, 0, 0⟩ := by
  have hcode : (DistanceField.Cuboid ⟨0, 0, 0⟩ ⟨1, 1, 1⟩).get_distance ⟨0, 0, 0⟩ =
      Real.sqrt 3 := by
    simp only [DistanceField.get_distance, Vec3.internal_sub_vec_vec, Vec3.abs,
      Vec3.max, Vec3.max_element, Vec3.internal_add_vec_scalar, Vec3.length,
      Vec3.sqr_length, Vec3.dot]
    norm_num [max_def, min_def]
  have hspec : cuboidSpecDistance ⟨0, 0, 0⟩ ⟨1, 1, 1⟩ ⟨0, 0, 0⟩ = -1 := by
    unfold cuboidSpecDistance cuboidQ
    simp only [Vec3.internal_sub_vec_vec, Vec3.abs, Vec3.max, Vec3.max_element,
      Vec3.length, Vec3.sqr_length, Vec3.dot]
    norm_num [max_def, min_def]
  rw [hcode, hspec]
  intro hEq
  have := Real.sqrt_nonneg 3
  linarith

/-- C1 amended: `Cuboid::get_distance` broadcast-adds the scalar
`min(max_component(q), 0)` to every component of `max(q, 0)` and then
takes the length.  Whenever some component of `q` is nonnegative (the
point is outside or on the box) this agrees with the claimed
`length(max(q, 0)) + min(max_component(q), 0)`; strictly inside the box
it instead returns the positive value `√3 * (-(max_component q))`, not
the negative signed interior distance. -/
theorem claim_C1_cuboid_amended (pos size p : Vec3) :
    (DistanceField.Cuboid pos size).get_distance p =
      (Vec3.internal_add_vec_scalar (Vec3.max (cuboidQ pos size p) 0)
        (Min.min (cuboidQ pos size p).max_element 0)).length ∧
    (0 ≤ (cuboidQ pos size p).max_element →
      (DistanceField.Cuboid pos size).get_distance p = cuboidSpecDistance pos size p) ∧
    ((cuboidQ pos size p).max_element < 0 →
      (DistanceField.Cuboid pos size).get_distance p =
        Real.sqrt 3 * (-(cuboidQ pos size p).max_element)) := by
  have h0 : (DistanceField.Cuboid pos size).get_distance p =
      (Vec3.internal_add_vec_scalar (Vec3.max (cuboidQ pos size p) 0)
        (Min.min (cuboidQ pos size p).max_element 0)).length := rfl
  refine ⟨h0, ?_, ?_⟩
  · intro hout
    rw [h0, min_eq_right hout]
    have hv : Vec3.internal_add_vec_scalar (Vec3.max (cuboidQ pos size p) 0) 0 =
        Vec3.max (cuboidQ pos size p) 0 := by
      simp [Vec3.internal_add_vec_scalar]
    rw [hv]
    unfold cuboidSpecDistance
    rw [min_eq_right hout, add_zero]
  · intro hin
    rw [h0, min_eq_left hin.le]
    set q := cuboidQ pos size p with hq
    have hqx : q.x < 0 := by
      have : q.x ≤ q.max_element := le_trans (le_max_left q.x q.y)
        (le_max_left (Max.max q.x q.y) q.z)
      linarith
    have hqy : q.y < 0 := by
      have : q.y ≤ q.max_element := le_trans (le_max_right q.x q.y)
        (le_max_left (Max.max q.x q.y) q.z)
      linarith
    have hqz : q.z < 0 := by
      have : q.z ≤ q.max_element := le_max_right (Max.max q.x q.y) q.z
      linarith
    have hmax : Vec3.max q 0 = ⟨0, 0, 0⟩ := by
      unfold Vec3.max
      simp only [Vec3.mk.injEq]
      exact ⟨max_eq_right hqx.le, max_eq_right hqy.le, max_eq_right hqz.le⟩
    rw [hmax]
    set s := q.max_element with hs
    unfold Vec3.internal_add_vec_scalar Vec3.length Vec3.sqr_length Vec3.dot
    simp only [zero_add]
    have h3 : s * s + s * s + s * s = 3 * s ^ 2 := by ring
    rw [h3, Real.sqrt_mul (by norm_num : (0:ℝ) ≤ 3), Real.sqrt_sq_eq_abs,
      abs_of_neg hin]

/-- Witness for C1's amended claim: outside the unit cuboid (at
`(3,0,0)`) the source agrees with the claimed formula, and at the center
`(0,0,0)` it returns `√3 * 1`. -/
theorem claim_C1_cuboid_amended_witness :
    ((0:ℝ) ≤ (cuboidQ ⟨0, 0, 0⟩ ⟨1, 1, 1⟩ ⟨3, 0, 0⟩).max_element ∧
      (DistanceField.Cuboid ⟨0, 0, 0⟩ ⟨1, 1, 1⟩).get_distance ⟨3, 0, 0⟩ =
        cuboidSpecDistance ⟨0, 0, 0⟩ ⟨1, 1, 1⟩ ⟨3, 0, 0⟩) ∧
    ((cuboidQ ⟨0, 0, 0⟩ ⟨1, 1, 1⟩ ⟨0, 0, 0⟩).max_element < 0 ∧
      (DistanceField.Cuboid ⟨0, 0, 0⟩ ⟨1, 1, 1⟩).get_distance ⟨0, 0, 0⟩ =
        Real.sqrt 3 * (-(cuboidQ ⟨0, 0, 0⟩ ⟨1, 1, 1⟩ ⟨0, 0, 0⟩).max_element)) := by
  have h1 : (0:ℝ) ≤ (cuboidQ ⟨0, 0, 0⟩ ⟨1, 1, 1⟩ ⟨3, 0, 0⟩).max_element := by
    unfold cuboidQ Vec3.max_element Vec3.abs Vec3.internal_sub_vec_vec
    norm_num [max_def]
  have h2 : (cuboidQ ⟨0, 0, 0⟩ ⟨1, 1, 1⟩ ⟨0, 0, 0⟩).max_element < 0 := by
    unfold cuboidQ Vec3.max_element Vec3.abs Vec3.internal_sub_vec_vec
    norm_num [max_def]
  exact ⟨⟨h1, (claim_C1_cuboid_amended _ _ _).2.1 h1⟩,
    ⟨h2, (claim_C1_cuboid_amended _ _ _).2.2 h2⟩⟩

/-- Helper: mapping `Prod.fst` over an `Option` after attaching a step
count is mapping `Prod.fst` directly. -/
theorem option_map_fst_count (x : Option (ℝ × ℕ)) :
    (x.map (fun r => (r.1, r.2 + 1))).map Prod.fst = x.map Prod.fst := by
  cases x <;> rfl

/-- Helper: `shadowAux` computes, for any trace the fuel completes, the
occlusion test followed by the clamped fold of `shadowStep` over the
trace, from an arbitrary starting accumulator. -/
theorem shadowAux_trace_spec (rm : RayMarcher) (sr : Ray) :
    ∀ (fuel : ℕ) (t0 r0 : ℝ) (steps : List (ℝ × ℝ)),
      rm.shadowTrace sr fuel t0 = some steps →
      (rm.shadowAux sr fuel t0 r0).map Prod.fst = some
        (if ∃ s ∈ steps, s.2 < rm.accuracy then 0
         else f64clamp (steps.foldl rm.shadowStep r0) 0 1) := by
  intro fuel
  induction fuel with
  | zero =>
    intro t0 r0 steps htrace
    rw [RayMarcher.shadowTrace] at htrace
    rw [RayMarcher.shadowAux]
    by_cases ht : t0 < rm.shadow_dist_max
    · rw [if_pos ht] at htrace
      exact absurd htrace (by simp)
    · rw [if_neg ht] at htrace
      rw [if_neg ht]
      obtain rfl : steps = [] := by simpa using htrace.symm
      simp
  | succ k ih =>
    intro t0 r0 steps htrace
    rw [RayMarcher.shadowTrace] at htrace
    rw [RayMarcher.shadowAux]
    by_cases ht : t0 < rm.shadow_dist_max
    · rw [if_pos ht] at htrace
      rw [if_pos ht]
      simp only at htrace ⊢
      by_cases hacc : rm.distance_field (Vec3.internal_add_vec_vec sr.orig
          (Vec3.internal_mul_vec_scalar sr.dir t0)) < rm.accuracy
      · rw [if_pos hacc] at htrace ⊢
        obtain rfl : steps = [(t0, rm.distance_field (Vec3.internal_add_vec_vec sr.orig
            (Vec3.internal_mul_vec_scalar sr.dir t0)))] := by simpa using htrace.symm
        have hex : ∃ s ∈ [(t0, rm.distance_field (Vec3.internal_add_vec_vec sr.orig
            (Vec3.internal_mul_vec_scalar sr.dir t0)))], s.2 < rm.accuracy := by
          exact ⟨_, List.mem_singleton_self _, hacc⟩
        rw [if_pos hex]
        rfl
      · rw [if_neg hacc] at htrace ⊢
        obtain ⟨l, hl, rfl⟩ : ∃ l, rm.shadowTrace sr k
            (t0 + rm.distance_field (Vec3.internal_add_vec_vec sr.orig
              (Vec3.internal_mul_vec_scalar sr.dir t0))) = some l ∧
            steps = (t0, rm.distance_field (Vec3.internal_add_vec_vec sr.orig
              (Vec3.internal_mul_vec_scalar sr.dir t0))) :: l := by
          cases hrec : rm.shadowTrace sr k
              (t0 + rm.distance_field (Vec3.internal_add_vec_vec sr.orig
                (Vec3.internal_mul_vec_scalar sr.dir t0))) with
          | none => rw [hrec] at htrace; exact absurd htrace (by simp)
          | some l =>
            rw [hrec] at htrace
            refine ⟨l, rfl, ?_⟩
            simpa using htrace.symm
        rw [option_map_fst_count]
        rw [ih _ _ l hl]
        have hnmem : (∃ s ∈ (t0, rm.distance_field (Vec3.internal_add_vec_vec sr.orig
            (Vec3.internal_mul_vec_scalar sr.dir t0))) :: l, s.2 < rm.accuracy) ↔
            (∃ s ∈ l, s.2 < rm.accuracy) := by
          constructor
          · rintro ⟨s, hs, hlt⟩
            rcases List.mem_cons.mp hs with rfl | hmem
            · exact absurd hlt hacc
            · exact ⟨s, hmem, hlt⟩
          · rintro ⟨s, hs, hlt⟩
            exact ⟨s, List.mem_cons_of_mem _ hs, hlt⟩
        by_cases hocc : ∃ s ∈ l, s.2 < rm.accuracy
        · rw [if_pos hocc, if_pos (hnmem.mpr hocc)]
        · rw [if_neg hocc, if_neg (fun hc => hocc (hnmem.mp hc))]
          rw [List.foldl_cons]
          rfl
    · rw [if_neg ht] at htrace
      rw [if_neg ht]
      obtain rfl : steps = [] := by simpa using htrace.symm
      simp

/-- Helper: one unfolding of `shadowTrace` while the budget check passes. -/
theorem shadowTrace_step (rm : RayMarcher) (sr : Ray) (k : ℕ) (t d : ℝ)
    (ht : t < rm.shadow_dist_max)
    (hd : rm.distance_field (Vec3.internal_add_vec_vec sr.orig
      (Vec3.internal_mul_vec_scalar sr.dir t)) = d) :
    rm.shadowTrace sr (k + 1) t =
      if d < rm.accuracy then some [(t, d)]
      else (rm.shadowTrace sr k (t + d)).map (fun l => (t, d) :: l) := by
  conv_lhs => rw [RayMarcher.shadowTrace]
  rw [if_pos ht]
  show (if rm.distance_field (Vec3.internal_add_vec_vec sr.orig
        (Vec3.internal_mul_vec_scalar sr.dir t)) < rm.accuracy
      then some [(t, rm.distance_field (Vec3.internal_add_vec_vec sr.orig
        (Vec3.internal_mul_vec_scalar sr.dir t)))]
      else (rm.shadowTrace sr k (t + rm.distance_field (Vec3.internal_add_vec_vec sr.orig
        (Vec3.internal_mul_vec_scalar sr.dir t)))).map
          (fun l => (t, rm.distance_field (Vec3.internal_add_vec_vec sr.orig
            (Vec3.internal_mul_vec_scalar sr.dir t))) :: l)) = _
  rw [hd]

/-- Helper: `shadowTrace` ends with the empty suffix once the budget
check fails, whatever the fuel. -/
theorem shadowTrace_stop (rm : RayMarcher) (sr : Ray) (fuel : ℕ) (t : ℝ)
    (ht : ¬ t < rm.shadow_dist_max) :
    rm.shadowTrace sr fuel t = some [] := by
  cases fuel with
  | zero => rw [RayMarcher.shadowTrace, if_neg ht]
  | succ k => rw [RayMarcher.shadowTrace, if_neg ht]

/-- C8: `RayMarcher::shadow` returns `0` if any step of the shadow march
evaluates a distance below `accuracy` (full occlusion); otherwise it
returns the running minimum, over all steps, of
`shadow_fuzziness * d / t` (a `t = 0` step contributing the IEEE quotient
`+∞`, hence no constraint), starting from `1` and clamped to `[0, 1]` at
the end. -/
theorem claim_C8_shadow_penumbra (rm : RayMarcher) (p n : Vec3) (steps : List (ℝ × ℝ))
    (htrace : rm.shadowTrace
      (Ray.new (Vec3.internal_add_vec_vec p (Vec3.internal_mul_vec_scalar n rm.accuracy))
        (Vec3.internal_neg_vec rm.light_dir))
      rm.shadowFuel rm.shadow_dist_min = some steps) :
    rm.shadow p n = some (rm.shadowSpecFactor steps) := by
  unfold RayMarcher.shadow RayMarcher.shadow_march RayMarcher.shadowSpecFactor
  exact shadowAux_trace_spec rm _ rm.shadowFuel rm.shadow_dist_min 1 steps htrace

/-- Witness for C8: over `rmPlaneUp`, the vertical shadow ray from the
origin visits the trace `[(0, 1), (1, 2)]` — no occlusion, both
accumulation steps leave the factor at `1` — so the shadow factor is `1`. -/
theorem claim_C8_shadow_penumbra_witness :
    rmPlaneUp.shadowTrace
      (Ray.new (Vec3.internal_add_vec_vec ⟨0, 0, 0⟩
          (Vec3.internal_mul_vec_scalar ⟨0, 1, 0⟩ rmPlaneUp.accuracy))
        (Vec3.internal_neg_vec rmPlaneUp.light_dir))
      rmPlaneUp.shadowFuel rmPlaneUp.shadow_dist_min = some [(0, 1), (1, 2)] ∧
    rmPlaneUp.shadow ⟨0, 0, 0⟩ ⟨0, 1, 0⟩ =
      some (rmPlaneUp.shadowSpecFactor [(0, 1), (1, 2)]) ∧
    rmPlaneUp.shadowSpecFactor [(0, 1), (1, 2)] = 1 := by
  have hsr : Ray.new (Vec3.internal_add_vec_vec ⟨0, 0, 0⟩
      (Vec3.internal_mul_vec_scalar ⟨0, 1, 0⟩ rmPlaneUp.accuracy))
      (Vec3.internal_neg_vec rmPlaneUp.light_dir) = ⟨⟨0, 1, 0⟩, ⟨0, 1, 0⟩⟩ := by
    unfold Ray.new Vec3.normalize Vec3.internal_div_vec_scalar Vec3.length
      Vec3.sqr_length Vec3.dot Vec3.internal_add_vec_vec Vec3.internal_mul_vec_scalar
      Vec3.internal_neg_vec rmPlaneUp
    norm_num [Ray.mk.injEq, Vec3.mk.injEq]
  have hfuel : rmPlaneUp.shadowFuel = 3 + 1 := by
    unfold RayMarcher.shadowFuel rmPlaneUp
    norm_num
    decide
  have hsmin : rmPlaneUp.shadow_dist_min = 0 := rfl
  have h0max : (0:ℝ) < rmPlaneUp.shadow_dist_max := by norm_num [rmPlaneUp]
  have h1max : (0:ℝ) + 1 < rmPlaneUp.shadow_dist_max := by norm_num [rmPlaneUp]
  have hstopt : ¬ ((0:ℝ) + 1 + 2 < rmPlaneUp.shadow_dist_max) := by norm_num [rmPlaneUp]
  have hd0 : rmPlaneUp.distance_field (Vec3.internal_add_vec_vec ⟨0, 1, 0⟩
      (Vec3.internal_mul_vec_scalar ⟨0, 1, 0⟩ 0)) = 1 := by
    unfold RayMarcher.distance_field rmPlaneUp
    simp [DistanceField.get_distance, Vec3.dot, Vec3.internal_add_vec_vec,
      Vec3.internal_mul_vec_scalar]
  have hd1 : rmPlaneUp.distance_field (Vec3.internal_add_vec_vec ⟨0, 1, 0⟩
      (Vec3.internal_mul_vec_scalar ⟨0, 1, 0⟩ (0 + 1))) = 2 := by
    unfold RayMarcher.distance_field rmPlaneUp
    simp [DistanceField.get_distance, Vec3.dot, Vec3.internal_add_vec_vec,
      Vec3.internal_mul_vec_scalar]
    norm_num
  have hacc1 : ¬ ((1:ℝ) < rmPlaneUp.accuracy) := by norm_num [rmPlaneUp]
  have hacc2 : ¬ ((2:ℝ) < rmPlaneUp.accuracy) := by norm_num [rmPlaneUp]
  have htr2 : rmPlaneUp.shadowTrace ⟨⟨0, 1, 0⟩, ⟨0, 1, 0⟩⟩ 2 (0 + 1 + 2) = some [] :=
    shadowTrace_stop _ _ _ _ hstopt
  have htr3 : rmPlaneUp.shadowTrace ⟨⟨0, 1, 0⟩, ⟨0, 1, 0⟩⟩ 3 (0 + 1) =
      some [((0:ℝ) + 1, (2:ℝ))] := by
    rw [show (3:ℕ) = 2 + 1 from by norm_num,
      shadowTrace_step rmPlaneUp _ 2 (0 + 1) 2 h1max hd1, if_neg hacc2, htr2]
    rfl
  have htr4 : rmPlaneUp.shadowTrace ⟨⟨0, 1, 0⟩, ⟨0, 1, 0⟩⟩ (3 + 1) 0 =
      some [(0, 1), (1, 2)] := by
    rw [shadowTrace_step rmPlaneUp _ 3 0 1 h0max hd0, if_neg hacc1, htr3]
    norm_num
  have htrace : rmPlaneUp.shadowTrace
      (Ray.new (Vec3.internal_add_vec_vec ⟨0, 0, 0⟩
          (Vec3.internal_mul_vec_scalar ⟨0, 1, 0⟩ rmPlaneUp.accuracy))
        (Vec3.internal_neg_vec rmPlaneUp.light_dir))
      rmPlaneUp.shadowFuel rmPlaneUp.shadow_dist_min = some [(0, 1), (1, 2)] := by
    rw [hsr, hfuel, hsmin, htr4]
  have hval : rmPlaneUp.shadowSpecFactor [(0, 1), (1, 2)] = 1 := by
    unfold RayMarcher.shadowSpecFactor RayMarcher.shadowStep
    rw [if_neg ?_]
    · norm_num [rmPlaneUp, f64clamp, min_def]
    · rintro ⟨s, hs, hlt⟩
      simp only [List.mem_cons, List.mem_singleton] at hs
      rcases hs with rfl | rfl | h
      · revert hlt; norm_num [rmPlaneUp]
      · revert hlt; norm_num [rmPlaneUp]
      · exact absurd h (List.not_mem_nil _)
  exact ⟨htrace, claim_C8_shadow_penumbra rmPlaneUp ⟨0, 0, 0⟩ ⟨0, 1, 0⟩ _ htrace, hval⟩

/-- Helper: one unfolding of `shadowAux` while the budget check passes. -/
theorem shadowAux_step (rm : RayMarcher) (sr : Ray) (k : ℕ) (t d r : ℝ)
    (ht : t < rm.shadow_dist_max)
    (hd : rm.distance_field (Vec3.internal_add_vec_vec sr.orig
      (Vec3.internal_mul_vec_scalar sr.dir t)) = d) :
    rm.shadowAux sr (k + 1) t r =
      if d < rm.accuracy then some (0, 1)
      else (rm.shadowAux sr k (t + d)
        (if t = 0 then r else Min.min r (rm.shadow_fuzziness * d / t))).map
          (fun o => (o.1, o.2 + 1)) := by
  conv_lhs => rw [RayMarcher.shadowAux]
  rw [if_pos ht]
  show (if rm.distance_field (Vec3.internal_add_vec_vec sr.orig
        (Vec3.internal_mul_vec_scalar sr.dir t)) < rm.accuracy
      then some (0, 1)
      else (rm.shadowAux sr k (t + rm.distance_field (Vec3.internal_add_vec_vec sr.orig
          (Vec3.internal_mul_vec_scalar sr.dir t)))
        (if t = 0 then r else Min.min r (rm.shadow_fuzziness *
          rm.distance_field (Vec3.internal_add_vec_vec sr.orig
            (Vec3.internal_mul_vec_scalar sr.dir t)) / t))).map
          (fun o => (o.1, o.2 + 1))) = _
  rw [hd]

/-- Helper: `shadowAux` exits with the clamped accumulator once the
budget check fails, whatever the fuel. -/
theorem shadowAux_stop (rm : RayMarcher) (sr : Ray) (fuel : ℕ) (t r : ℝ)
    (ht : ¬ t < rm.shadow_dist_max) :
    rm.shadowAux sr fuel t r = some (f64clamp r 0 1, 0) := by
  cases fuel with
  | zero => rw [RayMarcher.shadowAux, if_neg ht]
  | succ k => rw [RayMarcher.shadowAux, if_neg ht]

/-- Helper: the step count of `shadowAux` never exceeds the fuel. -/
theorem shadowAux_count_le_fuel (rm : RayMarcher) (sr : Ray) :
    ∀ (fuel : ℕ) (t r : ℝ) (out : ℝ × ℕ),
      rm.shadowAux sr fuel t r = some out → out.2 ≤ fuel := by
  intro fuel
  induction fuel with
  | zero =>
    intro t r out h
    rw [RayMarcher.shadowAux] at h
    by_cases ht : t < rm.shadow_dist_max
    · rw [if_pos ht] at h; exact absurd h (by simp)
    · rw [if_neg ht] at h
      obtain rfl : (f64clamp r 0 1, 0) = out := by simpa using h
      exact le_refl 0
  | succ k ih =>
    intro t r out h
    rw [RayMarcher.shadowAux] at h
    by_cases ht : t < rm.shadow_dist_max
    · rw [if_pos ht] at h
      simp only at h
      by_cases hacc : rm.distance_field (Vec3.internal_add_vec_vec sr.orig
          (Vec3.internal_mul_vec_scalar sr.dir t)) < rm.accuracy
      · rw [if_pos hacc] at h
        obtain rfl : ((0:ℝ), 1) = out := by simpa using h
        simp
      · rw [if_neg hacc] at h
        rw [Option.map_eq_some'] at h
        obtain ⟨o, hrec, ho⟩ := h
        have hle := ih _ _ o hrec
        rw [← ho]
        exact Nat.succ_le_succ hle
    · rw [if_neg ht] at h
      obtain rfl : (f64clamp r 0 1, 0) = out := by simpa using h
      exact Nat.zero_le _

/-- Helper: when `accuracy > 0`, fuel covering the remaining distance
budget in `accuracy`-sized steps makes `shadowAux` return a value. -/
theorem shadowAux_total (rm : RayMarcher) (sr : Ray) (hacc : 0 < rm.accuracy) :
    ∀ (fuel : ℕ) (t r : ℝ),
      rm.shadow_dist_max - t ≤ (fuel : ℝ) * rm.accuracy →
      ∃ out, rm.shadowAux sr fuel t r = some out := by
  intro fuel
  induction fuel with
  | zero =>
    intro t r hbound
    rw [RayMarcher.shadowAux]
    have ht : ¬ t < rm.shadow_dist_max := by
      push_cast at hbound
      intro hc
      nlinarith
    rw [if_neg ht]
    exact ⟨_, rfl⟩
  | succ k ih =>
    intro t r hbound
    rw [RayMarcher.shadowAux]
    by_cases ht : t < rm.shadow_dist_max
    · rw [if_pos ht]
      simp only
      by_cases hd : rm.distance_field (Vec3.internal_add_vec_vec sr.orig
          (Vec3.internal_mul_vec_scalar sr.dir t)) < rm.accuracy
      · rw [if_pos hd]; exact ⟨_, rfl⟩
      · rw [if_neg hd]
        push_neg at hd
        have hb : rm.shadow_dist_max - (t + rm.distance_field
            (Vec3.internal_add_vec_vec sr.orig
              (Vec3.internal_mul_vec_scalar sr.dir t))) ≤ (k : ℝ) * rm.accuracy := by
          push_cast at hbound
          nlinarith
        obtain ⟨out, hout⟩ := ih
          (t + rm.distance_field (Vec3.internal_add_vec_vec sr.orig
            (Vec3.internal_mul_vec_scalar sr.dir t)))
          (if t = 0 then r else Min.min r (rm.shadow_fuzziness *
            rm.distance_field (Vec3.internal_add_vec_vec sr.orig
              (Vec3.internal_mul_vec_scalar sr.dir t)) / t))
          hb
        rw [hout]
        exact ⟨_, rfl⟩
    · rw [if_neg ht]
      exact ⟨_, rfl⟩

/-- Helper: `shadowFuel` covers the whole budget when `accuracy > 0`. -/
theorem shadowFuel_covers (rm : RayMarcher) (hacc : 0 < rm.accuracy) :
    rm.shadow_dist_max - rm.shadow_dist_min ≤ (rm.shadowFuel : ℝ) * rm.accuracy := by
  unfold RayMarcher.shadowFuel
  set q := (rm.shadow_dist_max - rm.shadow_dist_min) / rm.accuracy with hq
  have h1 : rm.shadow_dist_max - rm.shadow_dist_min = q * rm.accuracy := by
    rw [hq]
    field_simp
  have h2 : q ≤ ((⌈q⌉.toNat : ℝ) + 1) := by
    have hceil := Int.le_ceil q
    have h3 : ((⌈q⌉ : ℤ) : ℝ) ≤ ((⌈q⌉.toNat : ℕ) : ℝ) := by
      exact_mod_cast Int.self_le_toNat ⌈q⌉
    linarith
  rw [h1]
  push_cast
  nlinarith

/-- Helper: the shadow march returns a value, with at most `shadowFuel`
distance-field evaluations, when `accuracy > 0`. -/
theorem shadow_march_total (rm : RayMarcher) (p n : Vec3) (hacc : 0 < rm.accuracy) :
    ∃ out, rm.shadow_march p n = some out ∧ out.2 ≤ rm.shadowFuel := by
  obtain ⟨out, hout⟩ := shadowAux_total rm
    (Ray.new (Vec3.internal_add_vec_vec p (Vec3.internal_mul_vec_scalar n rm.accuracy))
      (Vec3.internal_neg_vec rm.light_dir))
    hacc rm.shadowFuel rm.shadow_dist_min 1 (shadowFuel_covers rm hacc)
  exact ⟨out, hout, shadowAux_count_le_fuel rm _ _ _ _ out hout⟩

/-- Helper: shading returns a value when `accuracy > 0`. -/
theorem shading_total (rm : RayMarcher) (p : Vec3) (hacc : 0 < rm.accuracy) :
    ∃ c, rm.shading p = some c := by
  obtain ⟨out, hout, _⟩ := shadow_march_total rm p (rm.get_normal p) hacc
  simp only [RayMarcher.shading, RayMarcher.shadow]
  rw [hout]
  exact ⟨_, rfl⟩

/-- Helper: the primary march returns a value with at most `fuel`
distance-field evaluations when `accuracy > 0`. -/
theorem rayMarchAux_total_le (rm : RayMarcher) (ray : Ray) (hacc : 0 < rm.accuracy) :
    ∀ (fuel : ℕ) (i : ℤ) (t : ℝ) (res : Vec4),
      ∃ out, rm.rayMarchAux ray fuel i t res = some out ∧ out.2 ≤ fuel := by
  intro fuel
  induction fuel with
  | zero =>
    intro i t res
    exact ⟨(res, 0), rfl, le_refl 0⟩
  | succ k ih =>
    intro i t res
    rw [RayMarcher.rayMarchAux]
    by_cases ht : t > rm.max_distance
    · rw [if_pos ht]
      by_cases hdbg : rm.debug = true
      · rw [if_pos hdbg]
        exact ⟨_, rfl, Nat.zero_le _⟩
      · rw [if_neg hdbg]
        exact ⟨_, rfl, Nat.zero_le _⟩
    · rw [if_neg ht]
      simp only
      by_cases hd : rm.distance_field (Vec3.internal_add_vec_vec ray.orig
          (Vec3.internal_mul_vec_scalar ray.dir t)) < rm.accuracy
      · rw [if_pos hd]
        by_cases hdbg : rm.debug = true
        · rw [if_pos hdbg]
          exact ⟨_, rfl, by norm_num⟩
        · rw [if_neg hdbg]
          obtain ⟨c, hc⟩ := shading_total rm _ hacc
          rw [hc]
          exact ⟨_, rfl, by norm_num⟩
      · rw [if_neg hd]
        obtain ⟨o, ho, hle⟩ := ih (i + 1)
          (t + rm.distance_field (Vec3.internal_add_vec_vec ray.orig
            (Vec3.internal_mul_vec_scalar ray.dir t))) res
        rw [ho]
        exact ⟨_, rfl, Nat.succ_le_succ hle⟩

/-- C5 amended: every primary march of `ray_marching` performs at most
`max_iterations` distance-field evaluations and is stopped by the
`max_distance` budget check; the shadow march in `shadow` is *not*
capped by `max_iterations`, but for every configuration with positive
`accuracy` it terminates, bounded by the `shadow_dist_max` budget, within
`shadowFuel = ⌈(shadow_dist_max − shadow_dist_min)/accuracy⌉ + 1`
distance-field evaluations. -/
theorem claim_C5_march_bounds (rm : RayMarcher) (ray : Ray) (p n : Vec3)
    (hacc : 0 < rm.accuracy) :
    (∃ out, rm.rayMarchAux ray rm.max_iterations.toNat 0 0 Vec4.one = some out ∧
      out.2 ≤ rm.max_iterations.toNat) ∧
    (∃ out, rm.shadow_march p n = some out ∧ out.2 ≤ rm.shadowFuel) :=
  ⟨rayMarchAux_total_le rm ray hacc rm.max_iterations.toNat 0 0 Vec4.one,
   shadow_march_total rm p n hacc⟩

/-- Witness for C5's amended claim at the `rmPlaneUp` configuration. -/
theorem claim_C5_march_bounds_witness :
    (0:ℝ) < rmPlaneUp.accuracy ∧
    ((∃ out, rmPlaneUp.rayMarchAux ⟨⟨0, 0, 5⟩, ⟨0, 1, 0⟩⟩
        rmPlaneUp.max_iterations.toNat 0 0 Vec4.one = some out ∧
        out.2 ≤ rmPlaneUp.max_iterations.toNat) ∧
      (∃ out, rmPlaneUp.shadow_march ⟨0, 0, 0⟩ ⟨0, 1, 0⟩ = some out ∧
        out.2 ≤ rmPlaneUp.shadowFuel)) :=
  ⟨by norm_num [rmPlaneUp],
   claim_C5_march_bounds rmPlaneUp ⟨⟨0, 0, 5⟩, ⟨0, 1, 0⟩⟩ ⟨0, 0, 0⟩ ⟨0, 1, 0⟩
     (by norm_num [rmPlaneUp])⟩

/-- C5 counterexample: with `rmPlaneUp` (`max_iterations = 1`) the shadow
march from the origin performs `2` distance-field evaluations, exceeding
`max_iterations` — the shadow march has no iteration cap. -/
theorem claim_C5_counterexample :
    rmPlaneUp.shadow_march ⟨0, 0, 0⟩ ⟨0, 1, 0⟩ = some (1, 2) ∧
    ¬ ((2:ℕ) ≤ rmPlaneUp.max_iterations.toNat) := by
  constructor
  · have hsr : Ray.new (Vec3.internal_add_vec_vec ⟨0, 0, 0⟩
        (Vec3.internal_mul_vec_scalar ⟨0, 1, 0⟩ rmPlaneUp.accuracy))
        (Vec3.internal_neg_vec rmPlaneUp.light_dir) = ⟨⟨0, 1, 0⟩, ⟨0, 1, 0⟩⟩ := by
      unfold Ray.new Vec3.normalize Vec3.internal_div_vec_scalar Vec3.length
        Vec3.sqr_length Vec3.dot Vec3.internal_add_vec_vec Vec3.internal_mul_vec_scalar
        Vec3.internal_neg_vec rmPlaneUp
      norm_num [Ray.mk.injEq, Vec3.mk.injEq]
    have hfuel : rmPlaneUp.shadowFuel = 3 + 1 := by
      unfold RayMarcher.shadowFuel rmPlaneUp
      norm_num
      decide
    have hsmin : rmPlaneUp.shadow_dist_min = 0 := rfl
    have h0max : (0:ℝ) < rmPlaneUp.shadow_dist_max := by norm_num [rmPlaneUp]
    have h1max : (0:ℝ) + 1 < rmPlaneUp.shadow_dist_max := by norm_num [rmPlaneUp]
    have hstopt : ¬ ((0:ℝ) + 1 + 2 < rmPlaneUp.shadow_dist_max) := by
      norm_num [rmPlaneUp]
    have hd0 : rmPlaneUp.distance_field (Vec3.internal_add_vec_vec ⟨0, 1, 0⟩
        (Vec3.internal_mul_vec_scalar ⟨0, 1, 0⟩ 0)) = 1 := by
      unfold RayMarcher.distance_field rmPlaneUp
      simp [DistanceField.get_distance, Vec3.dot, Vec3.internal_add_vec_vec,
        Vec3.internal_mul_vec_scalar]
    have hd1 : rmPlaneUp.distance_field (Vec3.internal_add_vec_vec ⟨0, 1, 0⟩
        (Vec3.internal_mul_vec_scalar ⟨0, 1, 0⟩ (0 + 1))) = 2 := by
      unfold RayMarcher.distance_field rmPlaneUp
      simp [DistanceField.get_distance, Vec3.dot, Vec3.internal_add_vec_vec,
        Vec3.internal_mul_vec_scalar]
      norm_num
    have hacc1 : ¬ ((1:ℝ) < rmPlaneUp.accuracy) := by norm_num [rmPlaneUp]
    have hacc2 : ¬ ((2:ℝ) < rmPlaneUp.accuracy) := by norm_num [rmPlaneUp]
    show rmPlaneUp.shadowAux
        (Ray.new (Vec3.internal_add_vec_vec ⟨0, 0, 0⟩
            (Vec3.internal_mul_vec_scalar ⟨0, 1, 0⟩ rmPlaneUp.accuracy))
          (Vec3.internal_neg_vec rmPlaneUp.light_dir))
        rmPlaneUp.shadowFuel rmPlaneUp.shadow_dist_min 1 = some (1, 2)
    rw [hsr, hfuel, hsmin]
    rw [shadowAux_step rmPlaneUp _ 3 0 1 1 h0max hd0, if_neg hacc1,
      if_pos (rfl : (0:ℝ) = 0)]
    rw [show (3:ℕ) = 2 + 1 from by norm_num,
      shadowAux_step rmPlaneUp _ 2 (0 + 1) 2 1 h1max hd1, if_neg hacc2]
    rw [shadowAux_stop rmPlaneUp _ 2 _ _ hstopt]
    simp only [Option.map_some']
    norm_num [f64clamp, min_def, rmPlaneUp]
  · decide

/-- Helper: `f64clamp` lands in `[lo, hi]` when `lo ≤ hi`. -/
theorem f64clamp_mem (x lo hi : ℝ) (h : lo ≤ hi) :
    lo ≤ f64clamp x lo hi ∧ f64clamp x lo hi ≤ hi := by
  unfold f64clamp
  split_ifs with h1 h2
  · exact ⟨le_refl lo, h⟩
  · exact ⟨h, le_refl hi⟩
  · exact ⟨le_of_not_lt h1, le_of_not_lt h2⟩

/-- Helper: every factor the shadow march returns lies in `[0, 1]`. -/
theorem shadowAux_value_mem (rm : RayMarcher) (sr : Ray) :
    ∀ (fuel : ℕ) (t r : ℝ) (out : ℝ × ℕ),
      rm.shadowAux sr fuel t r = some out → 0 ≤ out.1 ∧ out.1 ≤ 1 := by
  intro fuel
  induction fuel with
  | zero =>
    intro t r out h
    rw [RayMarcher.shadowAux] at h
    by_cases ht : t < rm.shadow_dist_max
    · rw [if_pos ht] at h; exact absurd h (by simp)
    · rw [if_neg ht] at h
      obtain rfl : (f64clamp r 0 1, 0) = out := by simpa using h
      exact f64clamp_mem r 0 1 (by norm_num)
  | succ k ih =>
    intro t r out h
    rw [RayMarcher.shadowAux] at h
    by_cases ht : t < rm.shadow_dist_max
    · rw [if_pos ht] at h
      simp only at h
      by_cases hacc : rm.distance_field (Vec3.internal_add_vec_vec sr.orig
          (Vec3.internal_mul_vec_scalar sr.dir t)) < rm.accuracy
      · rw [if_pos hacc] at h
        obtain rfl : ((0:ℝ), 1) = out := by simpa using h
        norm_num
      · rw [if_neg hacc] at h
        rw [Option.map_eq_some'] at h
        obtain ⟨o, hrec, ho⟩ := h
        rw [← ho]
        exact ih _ _ o hrec
    · rw [if_neg ht] at h
      obtain rfl : (f64clamp r 0 1, 0) = out := by simpa using h
      exact f64clamp_mem r 0 1 (by norm_num)

/-- Helper: every color `create_ray_marcher`'s shading produces has its
three channels in `[0, 1.1]` — a direct term in `[0, 1]` plus an ambient
term in `[0, 0.1]`. -/
theorem shading_create_bounds (scene : DistanceField) (p : Vec3) (c : Vec4)
    (h : (create_ray_marcher scene).shading p = some c) :
    (0 ≤ c.x ∧ c.x ≤ 1.1) ∧ (0 ≤ c.y ∧ c.y ≤ 1.1) ∧ (0 ≤ c.z ∧ c.z ≤ 1.1) := by
  simp only [RayMarcher.shading, RayMarcher.shadow] at h
  obtain ⟨sh, hsh, hc⟩ := Option.map_eq_some'.mp h
  obtain ⟨out, hout, hfst⟩ := Option.map_eq_some'.mp hsh
  have hmem : 0 ≤ sh ∧ sh ≤ 1 := by
    rw [← hfst]
    exact shadowAux_value_mem (create_ray_marcher scene) _ _ _ _ out hout
  have hcd : 0 ≤ f64clamp (Vec3.dot
        (Vec3.internal_neg_vec (create_ray_marcher scene).light_dir)
        ((create_ray_marcher scene).get_normal p)) 0 1 ∧
      f64clamp (Vec3.dot
        (Vec3.internal_neg_vec (create_ray_marcher scene).light_dir)
        ((create_ray_marcher scene).get_normal p)) 0 1 ≤ 1 :=
    f64clamp_mem _ 0 1 (by norm_num)
  have hao : 0 ≤ (create_ray_marcher scene).ambient_occlusion p
        ((create_ray_marcher scene).get_normal p) ∧
      (create_ray_marcher scene).ambient_occlusion p
        ((create_ray_marcher scene).get_normal p) ≤ 1 :=
    f64clamp_mem _ 0 1 (by norm_num)
  rw [← hc]
  have hobj : (create_ray_marcher scene).obj_color = ⟨1, 1, 1⟩ := rfl
  have hlc : (create_ray_marcher scene).light_color = ⟨1, 1, 1⟩ := rfl
  have hli : (create_ray_marcher scene).light_intensity = 1 := rfl
  have hbgc : (create_ray_marcher scene).bg_light_color = ⟨1, 1, 1⟩ := rfl
  have hbgi : (create_ray_marcher scene).bg_light_intensity = 0.1 := rfl
  simp only [hobj, hlc, hli, hbgc, hbgi, Vec4.from_vec3, Vec3.internal_add_vec_vec,
    Vec3.internal_mul_vec_vec, Vec3.internal_mul_vec_scalar]
  refine ⟨⟨?_, ?_⟩, ⟨?_, ?_⟩, ?_, ?_⟩ <;>
    nlinarith [hmem.1, hmem.2, hcd.1, hcd.2, hao.1, hao.2]

/-- Helper: with the `create_ray_marcher` configuration the primary march
always returns a pixel whose channels lie in `[0, 1.1]`, whenever the
accumulator's channels do. -/
theorem rayMarchAux_create_bounds (scene : DistanceField) (ray : Ray) :
    ∀ (fuel : ℕ) (i : ℤ) (t : ℝ) (res : Vec4),
      (0 ≤ res.x ∧ res.x ≤ 1.1) ∧ (0 ≤ res.y ∧ res.y ≤ 1.1) ∧
        (0 ≤ res.z ∧ res.z ≤ 1.1) →
      ∃ out, (create_ray_marcher scene).rayMarchAux ray fuel i t res = some out ∧
        (0 ≤ out.1.x ∧ out.1.x ≤ 1.1) ∧ (0 ≤ out.1.y ∧ out.1.y ≤ 1.1) ∧
        (0 ≤ out.1.z ∧ out.1.z ≤ 1.1) := by
  intro fuel
  induction fuel with
  | zero =>
    intro i t res hres
    exact ⟨(res, 0), rfl, hres⟩
  | succ k ih =>
    intro i t res hres
    have hdbg : ¬ ((create_ray_marcher scene).debug = true) := by
      simp [create_ray_marcher]
    rw [RayMarcher.rayMarchAux]
    by_cases ht : t > (create_ray_marcher scene).max_distance
    · rw [if_pos ht, if_neg hdbg]
      refine ⟨_, rfl, ?_⟩
      norm_num [Vec4.zero]
    · rw [if_neg ht]
      simp only
      by_cases hd : (create_ray_marcher scene).distance_field
          (Vec3.internal_add_vec_vec ray.orig (Vec3.internal_mul_vec_scalar ray.dir t)) <
          (create_ray_marcher scene).accuracy
      · rw [if_pos hd, if_neg hdbg]
        obtain ⟨c, hc⟩ := shading_total (create_ray_marcher scene)
          (Vec3.internal_add_vec_vec ray.orig (Vec3.internal_mul_vec_scalar ray.dir t))
          (by norm_num [create_ray_marcher])
        rw [hc]
        exact ⟨_, rfl, shading_create_bounds scene _ c hc⟩
      · rw [if_neg hd]
        obtain ⟨o, ho, hbo⟩ := ih (i + 1)
          (t + (create_ray_marcher scene).distance_field
            (Vec3.internal_add_vec_vec ray.orig (Vec3.internal_mul_vec_scalar ray.dir t)))
          res hres
        rw [ho]
        exact ⟨_, rfl, hbo⟩

/-- C3 amended: for every scene and every ray, `ray_marching` with the
configuration built by `create_ray_marcher` returns a pixel and each of
its three color channels lies in `[0, 1.1]` — the direct-light term is
bounded by `1`, but the ambient term (up to `bg_light_intensity = 0.1`)
is summed on top without any final clamp, so the channels are not
confined to `[0, 1]`. -/
theorem claim_C3_pixel_range (scene : DistanceField) (ray : Ray) :
    ∃ v : Vec4, (create_ray_marcher scene).ray_marching ray = some v ∧
      0 ≤ v.x ∧ v.x ≤ 1.1 ∧ 0 ≤ v.y ∧ v.y ≤ 1.1 ∧ 0 ≤ v.z ∧ v.z ≤ 1.1 := by
  obtain ⟨out, hout, hb⟩ := rayMarchAux_create_bounds scene ray
    ((create_ray_marcher scene).max_iterations.toNat) 0 0 Vec4.one
    (by norm_num [Vec4.one])
  refine ⟨out.1, ?_, hb.1.1, hb.1.2, hb.2.1.1, hb.2.1.2, hb.2.2.1, hb.2.2.2⟩
  unfold RayMarcher.ray_marching
  rw [hout]
  rfl

/-- Helper: `planeN` has unit dot square. -/
theorem planeN_dot : Vec3.dot planeN planeN = 1 := by
  have hss : Real.sqrt 1.5 * Real.sqrt 1.5 = 1.5 := Real.mul_self_sqrt (by norm_num)
  have hs0 : Real.sqrt 1.5 ≠ 0 := by
    intro hc
    rw [hc] at hss
    norm_num at hss
  unfold planeN Vec3.dot
  simp only
  field_simp
  nlinarith [hss]

/-- Helper: dotting with `planeN` is affine along `planeN` translations. -/
theorem dot_add_smulN (a : Vec3) (c : ℝ) :
    Vec3.dot (Vec3.internal_add_vec_vec a (Vec3.internal_mul_vec_scalar planeN c)) planeN =
      Vec3.dot a planeN + c := by
  have h := planeN_dot
  unfold Vec3.dot at h
  unfold Vec3.dot Vec3.internal_add_vec_vec Vec3.internal_mul_vec_scalar
  linear_combination c * h

/-- Helper: the distance field of the head-on plane scene, along a
`planeN` translation. -/
theorem distance_field_planeN (a : Vec3) (c : ℝ) :
    (create_ray_marcher (DistanceField.Plane planeN 0)).distance_field
      (Vec3.internal_add_vec_vec a (Vec3.internal_mul_vec_scalar planeN c)) =
      Vec3.dot a planeN + c := by
  show Vec3.dot (Vec3.internal_add_vec_vec a (Vec3.internal_mul_vec_scalar planeN c))
      planeN + 0 = Vec3.dot a planeN + c
  rw [dot_add_smulN, add_zero]

/-- Helper: a vector of unit dot square normalizes to itself. -/
theorem normalize_unit (nv : Vec3) (hdot : Vec3.dot nv nv = 1) :
    Vec3.normalize nv = nv := by
  unfold Vec3.normalize Vec3.internal_div_vec_scalar Vec3.length Vec3.sqr_length
  rw [hdot, Real.sqrt_one]
  simp

/-- Helper: the central-difference normal estimate over a plane scene
with a normal of unit dot square is the plane's normal, exactly. -/
theorem get_normal_plane (rm : RayMarcher) (nv : Vec3) (h : ℝ) (p : Vec3) (eps : ℝ)
    (hscene : rm.scene = DistanceField.Plane nv h)
    (hx : rm.offset_x = ⟨eps, 0, 0⟩) (hy : rm.offset_y = ⟨0, eps, 0⟩)
    (hz : rm.offset_z = ⟨0, 0, eps⟩) (heps : 0 < eps) (hdot : Vec3.dot nv nv = 1) :
    rm.get_normal p = nv := by
  have hv : rm.get_normal p = Vec3.normalize (Vec3.internal_mul_vec_scalar nv (2 * eps)) := by
    unfold RayMarcher.get_normal RayMarcher.distance_field
    rw [hscene, hx, hy, hz]
    obtain ⟨nx, ny, nz⟩ := nv
    simp only [DistanceField.get_distance, Vec3.internal_add_vec_vec,
      Vec3.internal_sub_vec_vec, Vec3.dot, Vec3.internal_mul_vec_scalar]
    congr 1
    simp only [Vec3.mk.injEq]
    refine ⟨?_, ?_, ?_⟩ <;> ring
  rw [hv, normalize_smul_unit nv (2 * eps) (by linarith) hdot]

/-- Helper: over the head-on plane scene, each shadow-march step sees the
distance `0.00001 + t`, so the penumbra accumulator stays `1`. -/
theorem shadowAux_planeN_one (sro : Vec3) (hsro : Vec3.dot sro planeN = 0.00001) :
    ∀ (fuel : ℕ) (t : ℝ), 0 ≤ t →
      ∀ out, (create_ray_marcher (DistanceField.Plane planeN 0)).shadowAux
        ⟨sro, planeN⟩ fuel t 1 = some out → out.1 = 1 := by
  intro fuel
  induction fuel with
  | zero =>
    intro t ht0 out h
    rw [RayMarcher.shadowAux] at h
    by_cases ht : t < (create_ray_marcher (DistanceField.Plane planeN 0)).shadow_dist_max
    · rw [if_pos ht] at h
      exact absurd h (by simp)
    · rw [if_neg ht] at h
      obtain rfl : (f64clamp 1 0 1, 0) = out := by simpa using h
      norm_num [f64clamp]
  | succ k ih =>
    intro t ht0 out h
    rw [RayMarcher.shadowAux] at h
    by_cases ht : t < (create_ray_marcher (DistanceField.Plane planeN 0)).shadow_dist_max
    · rw [if_pos ht] at h
      simp only at h
      rw [distance_field_planeN sro t, hsro] at h
      have hnacc : ¬ ((0.00001 + t) <
          (create_ray_marcher (DistanceField.Plane planeN 0)).accuracy) := by
        have hacc : (create_ray_marcher (DistanceField.Plane planeN 0)).accuracy =
            0.00001 := rfl
        rw [hacc]
        linarith
      rw [if_neg hnacc] at h
      have hrone : (if t = 0 then (1:ℝ) else Min.min 1
          ((create_ray_marcher (DistanceField.Plane planeN 0)).shadow_fuzziness *
            (0.00001 + t) / t)) = 1 := by
        by_cases ht0' : t = 0
        · rw [if_pos ht0']
        · rw [if_neg ht0']
          have htpos : 0 < t := lt_of_le_of_ne ht0 (Ne.symm ht0')
          have hfz : (create_ray_marcher (DistanceField.Plane planeN 0)).shadow_fuzziness
              = 5 := rfl
          rw [hfz]
          apply min_eq_left
          rw [le_div_iff htpos]
          nlinarith
      rw [hrone] at h
      rw [Option.map_eq_some'] at h
      obtain ⟨o, hrec, ho⟩ := h
      rw [← ho]
      exact ih (t + (0.00001 + t)) (by linarith) o hrec
    · rw [if_neg ht] at h
      obtain rfl : (f64clamp 1 0 1, 0) = out := by simpa using h
      norm_num [f64clamp]

/-- Helper: the ambient-occlusion accumulator vanishes on the head-on
plane scene at a point on the plane. -/
theorem aoLoop_planeN (p0 : Vec3) (hp0 : Vec3.dot p0 planeN = 0) :
    ∀ k, (create_ray_marcher (DistanceField.Plane planeN 0)).aoLoop p0 planeN k = 0 := by
  intro k
  induction k with
  | zero => rfl
  | succ m ih =>
    rw [RayMarcher.aoLoop]
    show (create_ray_marcher (DistanceField.Plane planeN 0)).aoLoop p0 planeN m +
        Max.max 0 (((create_ray_marcher (DistanceField.Plane planeN 0)).ao_step_size *
            ((m : ℝ) + 1) -
          (create_ray_marcher (DistanceField.Plane planeN 0)).distance_field
            (Vec3.internal_add_vec_vec p0 (Vec3.internal_mul_vec_scalar planeN
              ((create_ray_marcher (DistanceField.Plane planeN 0)).ao_step_size *
                ((m : ℝ) + 1))))) /
          ((create_ray_marcher (DistanceField.Plane planeN 0)).ao_step_size *
            ((m : ℝ) + 1))) = 0
    rw [distance_field_planeN p0 _, hp0, ih]
    norm_num

/-- Helper: ambient occlusion is `1` on the head-on plane scene at a
point on the plane. -/
theorem ao_planeN (p0 : Vec3) (hp0 : Vec3.dot p0 planeN = 0) :
    (create_ray_marcher (DistanceField.Plane planeN 0)).ambient_occlusion p0 planeN = 1 := by
  unfold RayMarcher.ambient_occlusion
  rw [aoLoop_planeN p0 hp0]
  norm_num [f64clamp]

/-- Helper: one unfolding of the primary march at a hit (not in debug
mode). -/
theorem rayMarchAux_hit (rm : RayMarcher) (ray : Ray) (k : ℕ) (i : ℤ) (t : ℝ)
    (res : Vec4) (ht : ¬ t > rm.max_distance)
    (hd : rm.distance_field (Vec3.internal_add_vec_vec ray.orig
      (Vec3.internal_mul_vec_scalar ray.dir t)) < rm.accuracy)
    (hdbg : ¬ rm.debug = true) :
    rm.rayMarchAux ray (k + 1) i t res =
      (rm.shading (Vec3.internal_add_vec_vec ray.orig
        (Vec3.internal_mul_vec_scalar ray.dir t))).map (fun c => (c, 1)) := by
  rw [RayMarcher.rayMarchAux, if_neg ht]
  show (if rm.distance_field (Vec3.internal_add_vec_vec ray.orig
        (Vec3.internal_mul_vec_scalar ray.dir t)) < rm.accuracy
      then (if rm.debug then
          some (Vec4.internal_div_vec_scalar
            (Vec4.internal_mul_vec_scalar Vec4.one (i : ℝ)) (rm.max_iterations : ℝ), 1)
        else (rm.shading (Vec3.internal_add_vec_vec ray.orig
          (Vec3.internal_mul_vec_scalar ray.dir t))).map (fun c => (c, 1)))
      else (rm.rayMarchAux ray k (i + 1) (t + rm.distance_field
        (Vec3.internal_add_vec_vec ray.orig (Vec3.internal_mul_vec_scalar ray.dir t)))
        res).map (fun r => (r.1, r.2 + 1))) = _
  rw [if_pos hd, if_neg hdbg]

/-- C3 counterexample: with the configuration built by
`create_ray_marcher` over a plane through the origin facing the light
head-on, the ray from the origin along `x` hits immediately and the pixel
returned by `ray_marching` is `(1.1, 1.1, 1.1, 1)` — its color channels
exceed `1` (direct light `1` plus ambient light `0.1`, never clamped). -/
theorem claim_C3_counterexample :
    (create_ray_marcher (DistanceField.Plane planeN 0)).ray_marching
      ⟨⟨0, 0, 0⟩, ⟨1, 0, 0⟩⟩ = some ⟨1.1, 1.1, 1.1, 1⟩ ∧ ¬ ((1.1:ℝ) ≤ 1) := by
  have hp0dot : Vec3.dot (Vec3.internal_add_vec_vec ⟨0, 0, 0⟩
      (Vec3.internal_mul_vec_scalar ⟨1, 0, 0⟩ 0)) planeN = 0 := by
    unfold Vec3.dot Vec3.internal_add_vec_vec Vec3.internal_mul_vec_scalar
    ring
  have hlen : Vec3.length ⟨0.5, -1, 0.5⟩ = Real.sqrt 1.5 := by
    unfold Vec3.length Vec3.sqr_length Vec3.dot
    norm_num
  have hneg : Vec3.internal_neg_vec
      (create_ray_marcher (DistanceField.Plane planeN 0)).light_dir = planeN := by
    show Vec3.internal_neg_vec (Vec3.normalize ⟨0.5, -1, 0.5⟩) = planeN
    unfold Vec3.normalize Vec3.internal_div_vec_scalar Vec3.internal_neg_vec
    rw [hlen]
    unfold planeN
    norm_num [Vec3.mk.injEq, neg_div]
  have hn : (create_ray_marcher (DistanceField.Plane planeN 0)).get_normal
      (Vec3.internal_add_vec_vec ⟨0, 0, 0⟩
        (Vec3.internal_mul_vec_scalar ⟨1, 0, 0⟩ 0)) = planeN :=
    get_normal_plane _ planeN 0 _ 0.000001 rfl rfl rfl rfl (by norm_num) planeN_dot
  have hsro : Vec3.dot (Vec3.internal_add_vec_vec
      (Vec3.internal_add_vec_vec ⟨0, 0, 0⟩ (Vec3.internal_mul_vec_scalar ⟨1, 0, 0⟩ 0))
      (Vec3.internal_mul_vec_scalar planeN
        (create_ray_marcher (DistanceField.Plane planeN 0)).accuracy)) planeN
      = 0.00001 := by
    rw [show (create_ray_marcher (DistanceField.Plane planeN 0)).accuracy = 0.00001
      from rfl]
    rw [dot_add_smulN _ 0.00001, hp0dot, zero_add]
  have hsr : Ray.new (Vec3.internal_add_vec_vec
      (Vec3.internal_add_vec_vec ⟨0, 0, 0⟩ (Vec3.internal_mul_vec_scalar ⟨1, 0, 0⟩ 0))
      (Vec3.internal_mul_vec_scalar planeN
        (create_ray_marcher (DistanceField.Plane planeN 0)).accuracy))
      (Vec3.internal_neg_vec
        (create_ray_marcher (DistanceField.Plane planeN 0)).light_dir) =
      ⟨Vec3.internal_add_vec_vec
        (Vec3.internal_add_vec_vec ⟨0, 0, 0⟩ (Vec3.internal_mul_vec_scalar ⟨1, 0, 0⟩ 0))
        (Vec3.internal_mul_vec_scalar planeN
          (create_ray_marcher (DistanceField.Plane planeN 0)).accuracy), planeN⟩ := by
    unfold Ray.new
    rw [hneg, normalize_unit planeN planeN_dot]
  have hacc' : (0:ℝ) < (create_ray_marcher (DistanceField.Plane planeN 0)).accuracy := by
    norm_num [create_ray_marcher]
  have hshadow : (create_ray_marcher (DistanceField.Plane planeN 0)).shadow
      (Vec3.internal_add_vec_vec ⟨0, 0, 0⟩
        (Vec3.internal_mul_vec_scalar ⟨1, 0, 0⟩ 0)) planeN = some 1 := by
    obtain ⟨out, hout, _⟩ := shadow_march_total
      (create_ray_marcher (DistanceField.Plane planeN 0))
      (Vec3.internal_add_vec_vec ⟨0, 0, 0⟩ (Vec3.internal_mul_vec_scalar ⟨1, 0, 0⟩ 0))
      planeN hacc'
    have heq : (create_ray_marcher (DistanceField.Plane planeN 0)).shadow_march
        (Vec3.internal_add_vec_vec ⟨0, 0, 0⟩ (Vec3.internal_mul_vec_scalar ⟨1, 0, 0⟩ 0))
        planeN =
        (create_ray_marcher (DistanceField.Plane planeN 0)).shadowAux
          ⟨Vec3.internal_add_vec_vec
            (Vec3.internal_add_vec_vec ⟨0, 0, 0⟩
              (Vec3.internal_mul_vec_scalar ⟨1, 0, 0⟩ 0))
            (Vec3.internal_mul_vec_scalar planeN
              (create_ray_marcher (DistanceField.Plane planeN 0)).accuracy), planeN⟩
          (create_ray_marcher (DistanceField.Plane planeN 0)).shadowFuel 0 1 := by
      show (create_ray_marcher (DistanceField.Plane planeN 0)).shadowAux
        (Ray.new (Vec3.internal_add_vec_vec
          (Vec3.internal_add_vec_vec ⟨0, 0, 0⟩
            (Vec3.internal_mul_vec_scalar ⟨1, 0, 0⟩ 0))
          (Vec3.internal_mul_vec_scalar planeN
            (create_ray_marcher (DistanceField.Plane planeN 0)).accuracy))
          (Vec3.internal_neg_vec
            (create_ray_marcher (DistanceField.Plane planeN 0)).light_dir))
        (create_ray_marcher (DistanceField.Plane planeN 0)).shadowFuel
        (create_ray_marcher (DistanceField.Plane planeN 0)).shadow_dist_min 1 = _
      rw [hsr]
      rfl
    have hout' : (create_ray_marcher (DistanceField.Plane planeN 0)).shadowAux
        ⟨Vec3.internal_add_vec_vec
          (Vec3.internal_add_vec_vec ⟨0, 0, 0⟩
            (Vec3.internal_mul_vec_scalar ⟨1, 0, 0⟩ 0))
          (Vec3.internal_mul_vec_scalar planeN
            (create_ray_marcher (DistanceField.Plane planeN 0)).accuracy), planeN⟩
        (create_ray_marcher (DistanceField.Plane planeN 0)).shadowFuel 0 1 = some out := by
      rw [← heq]
      exact hout
    have h1 : out.1 = 1 := shadowAux_planeN_one _ hsro
      (create_ray_marcher (DistanceField.Plane planeN 0)).shadowFuel 0 (le_refl 0)
      out hout'
    unfold RayMarcher.shadow
    rw [hout]
    simp [h1]
  have hshade : (create_ray_marcher (DistanceField.Plane planeN 0)).shading
      (Vec3.internal_add_vec_vec ⟨0, 0, 0⟩
        (Vec3.internal_mul_vec_scalar ⟨1, 0, 0⟩ 0)) = some ⟨1.1, 1.1, 1.1, 1⟩ := by
    simp only [RayMarcher.shading]
    rw [hn, hshadow]
    simp only [Option.map_some']
    have hcd1 : Vec3.dot (Vec3.internal_neg_vec
        (create_ray_marcher (DistanceField.Plane planeN 0)).light_dir) planeN = 1 := by
      rw [hneg]
      exact planeN_dot
    rw [hcd1, ao_planeN _ hp0dot]
    have hobj : (create_ray_marcher (DistanceField.Plane planeN 0)).obj_color =
        ⟨1, 1, 1⟩ := rfl
    have hlc : (create_ray_marcher (DistanceField.Plane planeN 0)).light_color =
        ⟨1, 1, 1⟩ := rfl
    have hli : (create_ray_marcher (DistanceField.Plane planeN 0)).light_intensity =
        1 := rfl
    have hbgc : (create_ray_marcher (DistanceField.Plane planeN 0)).bg_light_color =
        ⟨1, 1, 1⟩ := rfl
    have hbgi : (create_ray_marcher (DistanceField.Plane planeN 0)).bg_light_intensity =
        0.1 := rfl
    norm_num [f64clamp, Vec4.from_vec3, Vec3.internal_add_vec_vec,
      Vec3.internal_mul_vec_vec, Vec3.internal_mul_vec_scalar, hobj, hlc, hli,
      hbgc, hbgi, Vec4.mk.injEq]
  constructor
  · have ht : ¬ ((0:ℝ) > (create_ray_marcher (DistanceField.Plane planeN 0)).max_distance) := by
      norm_num [create_ray_marcher]
    have hdbg : ¬ ((create_ray_marcher (DistanceField.Plane planeN 0)).debug = true) := by
      simp [create_ray_marcher]
    have hd : (create_ray_marcher (DistanceField.Plane planeN 0)).distance_field
        (Vec3.internal_add_vec_vec (Ray.mk ⟨0, 0, 0⟩ ⟨1, 0, 0⟩).orig
          (Vec3.internal_mul_vec_scalar (Ray.mk ⟨0, 0, 0⟩ ⟨1, 0, 0⟩).dir 0)) <
        (create_ray_marcher (DistanceField.Plane planeN 0)).accuracy := by
      show Vec3.dot (Vec3.internal_add_vec_vec ⟨0, 0, 0⟩
        (Vec3.internal_mul_vec_scalar ⟨1, 0, 0⟩ 0)) planeN + 0 <
        (create_ray_marcher (DistanceField.Plane planeN 0)).accuracy
      rw [hp0dot]
      norm_num [create_ray_marcher]
    unfold RayMarcher.ray_marching
    rw [show ((create_ray_marcher (DistanceField.Plane planeN 0)).max_iterations).toNat =
      3999 + 1 from rfl]
    rw [rayMarchAux_hit _ _ 3999 0 0 Vec4.one ht hd hdbg]
    show (((create_ray_marcher (DistanceField.Plane planeN 0)).shading
      (Vec3.internal_add_vec_vec ⟨0, 0, 0⟩
        (Vec3.internal_mul_vec_scalar ⟨1, 0, 0⟩ 0))).map
          (fun c => (c, 1))).map Prod.fst = some ⟨1.1, 1.1, 1.1, 1⟩
    rw [hshade]
    rfl
  · norm_num
